/-
  Verification of the HueBLE controller (src/hue_ble_controller) against its
  natural-language specification.

  The Python source is shallowly embedded: each effect function
  (fade_in, fade_out, alarm in controller.py) becomes a Lean function that
  returns the list of device actions it performs (power, brightness,
  colour-temperature, colour-xy writes and sleeps) together with the boolean
  completion flag it returns.  Python float arithmetic is modelled by exact
  rationals; Python `int()` (truncation toward zero) is modelled by `pyInt`.
  The `cancel_check` callable and the wall-clock part of the alarm stop
  predicate are modelled by a boolean stream indexed by the number of checks
  performed so far, plus an explicit event-loop clock advanced by each sleep
  (asyncio sleeps are the only time consumers in this idealisation).
  Unbounded `while` loops are given explicit fuel; a `none` result means the
  fuel was exhausted, i.e. the loop had not yet terminated.
-/
import Mathlib

/-- Device actions and sleeps performed by an effect, in program order. -/
inductive Act where
  | power (b : Bool)
  | bright (b : ℤ)
  | temp (t : ℤ)
  | colourXY (x y : ℚ)
  | sleep (s : ℚ)
  deriving DecidableEq, Repr

/-- Python `int()` on a rational value: truncation toward zero. -/
def pyInt (q : ℚ) : ℤ := q.num.tdiv q.den

/-- Number of fade steps: `max(int(duration_minutes * 6), 1)` from
fade_in / fade_out in controller.py. -/
def stepsOf (dur : ℚ) : ℕ := (max (pyInt (dur * 6)) 1).toNat

/-- The absent `cancel_check` argument (`None` in Python): never cancelled. -/
def cfalse : ℕ → Bool := fun _ => false

/-- Brightness values appearing in a trace, in order. -/
def writesOf : List Act → List ℤ
  | [] => []
  | Act.bright b :: tr => b :: writesOf tr
  | _ :: tr => writesOf tr

/-- Colour-temperature values appearing in a trace, in order. -/
def tempsOf : List Act → List ℤ
  | [] => []
  | Act.temp t :: tr => t :: tempsOf tr
  | _ :: tr => tempsOf tr

/-- Loop body of fade_in (controller.py lines 180-195): one iteration per
index in the given list, cancel checked before each step, brightness and
temperature written from the progress fraction, a sleep between steps. -/
def fadeInIter (cancel : ℕ → Bool) (steps : ℕ) (delay : ℚ) :
    List ℕ → List Act × Bool
  | [] => ([], true)
  | i :: rest =>
    if cancel i then ([], false)
    else
      let p : ℚ := (i : ℚ) / (steps : ℚ)
      let tail := fadeInIter cancel steps delay rest
      (Act.bright (pyInt ((1 : ℚ) + 253 * p)) ::
        Act.temp (pyInt ((500 : ℚ) - 250 * p)) ::
        (if i < steps then Act.sleep delay :: tail.1 else tail.1), tail.2)

/-- fade_in (controller.py lines 158-197): initial frame power on,
brightness 1, temperature 500, then the step loop. -/
def fade_in (dur : ℚ) (cancel : ℕ → Bool) : List Act × Bool :=
  let steps := stepsOf dur
  let delay := dur * 60 / (steps : ℚ)
  let body := fadeInIter cancel steps delay (List.range (steps + 1))
  ([Act.power true, Act.bright 1, Act.temp 500] ++ body.1, body.2)

/-- Loop body of fade_out (controller.py lines 216-231); the brightness
write is floored at 1 by `max(1, brightness)`. -/
def fadeOutIter (cancel : ℕ → Bool) (steps : ℕ) (delay : ℚ) :
    List ℕ → List Act × Bool
  | [] => ([], true)
  | i :: rest =>
    if cancel i then ([], false)
    else
      let p : ℚ := (i : ℚ) / (steps : ℚ)
      let tail := fadeOutIter cancel steps delay rest
      (Act.bright (max 1 (pyInt ((254 : ℚ) - 253 * p))) ::
        Act.temp (pyInt ((250 : ℚ) + 250 * p)) ::
        (if i < steps then Act.sleep delay :: tail.1 else tail.1), tail.2)

/-- fade_out (controller.py lines 200-234): initial frame power on,
brightness 254, temperature 250, the step loop, and a final power-off that
is only reached when the loop completes without cancellation. -/
def fade_out (dur : ℚ) (cancel : ℕ → Bool) : List Act × Bool :=
  let steps := stepsOf dur
  let delay := dur * 60 / (steps : ℚ)
  let body := fadeOutIter cancel steps delay (List.range (steps + 1))
  ([Act.power true, Act.bright 254, Act.temp 250] ++ body.1 ++
    (if body.2 then [Act.power false] else []), body.2)

/-- Length of a CPython `range(start, stop, step)` for `step ≠ 0`. -/
def pyRangeLen (start stop step : ℤ) : ℕ :=
  if 0 < step then ((stop - start + step - 1) / step).toNat
  else if step < 0 then ((start - stop + (-step) - 1) / (-step)).toNat
  else 0

/-- CPython `range(start, stop, step)` as a list. -/
def pyRange (start stop step : ℤ) : List ℤ :=
  (List.range (pyRangeLen start stop step)).map (fun i => start + step * i)

/-- Stop configuration of the alarm: the cancel stream together with the
optional absolute end time (`end_time` in controller.py line 261). -/
structure StopCfg where
  cancel : ℕ → Bool
  endTime : Option ℚ

/-- The alarm's `should_stop` predicate (controller.py lines 263-268),
reading the k-th value of the cancel stream and the event-loop clock. -/
def shouldStop (c : StopCfg) (k : ℕ) (now : ℚ) : Bool :=
  c.cancel k ||
    match c.endTime with
    | some e => decide (e ≤ now)
    | none => false

/-- The flash / fast alarm loop (controller.py lines 288-295): toggle the
power state and sleep `interval`, stop check before each toggle. -/
def flashLoop (c : StopCfg) (iv : ℚ) :
    ℕ → ℕ → ℚ → Bool → Option (List Act × ℕ × ℚ)
  | 0, _, _, _ => none
  | fuel + 1, k, now, st =>
    if shouldStop c k now then some ([], k + 1, now)
    else
      match flashLoop c iv fuel (k + 1) (now + iv) (!st) with
      | none => none
      | some (tr, k2, t2) => some (Act.power (!st) :: Act.sleep iv :: tr, k2, t2)

/-- One breathing ramp over a list of brightness values (controller.py
lines 273-277 and 283-287): stop check before each write, 0.05 s sleep
after each write. -/
def rampLoop (c : StopCfg) : List ℤ → ℕ → ℚ → List Act × ℕ × ℚ
  | [], k, now => ([], k, now)
  | v :: rest, k, now =>
    if shouldStop c k now then ([], k + 1, now)
    else
      let r := rampLoop c rest (k + 1) (now + 0.05)
      (Act.bright v :: Act.sleep 0.05 :: r.1, r.2.1, r.2.2)

/-- The breathing alarm loop (controller.py lines 270-287): while the stop
predicate is false, ramp down over range(254, 20, -15), re-check, ramp up
over range(20, 254, 15). -/
def breathingLoop (c : StopCfg) : ℕ → ℕ → ℚ → Option (List Act × ℕ × ℚ)
  | 0, _, _ => none
  | fuel + 1, k, now =>
    if shouldStop c k now then some ([], k + 1, now)
    else
      let d := rampLoop c (pyRange 254 20 (-15)) (k + 1) now
      if shouldStop c d.2.1 d.2.2 then some (d.1, d.2.1 + 1, d.2.2)
      else
        let u := rampLoop c (pyRange 20 254 15) (d.2.1 + 1) d.2.2
        match breathingLoop c fuel u.2.1 u.2.2 with
        | none => none
        | some (tr, k2, t2) => some (d.1 ++ u.1 ++ tr, k2, t2)

/-- alarm (controller.py lines 237-299): setup frame power on,
brightness 254, colour; the style loop; on any loop exit the closing frame
power on, brightness 254 and the returned `True`.  The clock starts at 0
and `end_time` is `dur * 60` when `dur > 0`, absent otherwise. -/
def alarm (cx cy : ℚ) (style : String) (cancel : ℕ → Bool) (dur : ℚ)
    (fuel : ℕ) : Option (List Act × Bool) :=
  let c : StopCfg := ⟨cancel, if 0 < dur then some (dur * 60) else none⟩
  let body :=
    if style = "breathing" then breathingLoop c fuel 0 0
    else flashLoop c (if style = "fast" then 0.2 else 0.5) fuel 0 0 true
  match body with
  | none => none
  | some (tr, _, _) =>
    some ([Act.power true, Act.bright 254, Act.colourXY cx cy] ++ tr ++
      [Act.power true, Act.bright 254], true)

/-- Trace of n uninterrupted flash cycles starting from power state s:
each cycle toggles the state, writes it, and sleeps the interval. -/
def flashCycles (iv : ℚ) : ℕ → Bool → List Act
  | 0, _ => []
  | n + 1, s => Act.power (!s) :: Act.sleep iv :: flashCycles iv n (!s)

/-- Gamma decode of one sRGB channel (controller.py lines 328-330); the
non-linear branch's float power `** 2.4` is abstracted as the function
argument `pw`, applied to (c + 0.055) / 1.055.  The linear branch, the
thresholds and the matrix below are exact in the inputs this development
evaluates them at. -/
def gammaDecode (pw : ℚ → ℚ) (c : ℚ) : ℚ :=
  if 0.04045 < c then pw ((c + 0.055) / 1.055) else c / 12.92

/-- rgb_to_xy (controller.py lines 325-337): gamma decode each channel,
transform to XYZ by the sRGB matrix, and normalise — unless the XYZ total
is zero, in which case the D65 white point is returned. -/
def rgb_to_xy (pw : ℚ → ℚ) (r g b : ℤ) : ℚ × ℚ :=
  let rr := gammaDecode pw ((r : ℚ) / 255)
  let gg := gammaDecode pw ((g : ℚ) / 255)
  let bb := gammaDecode pw ((b : ℚ) / 255)
  let X := rr * 0.4124564 + gg * 0.3575761 + bb * 0.1804375
  let Y := rr * 0.2126729 + gg * 0.7151522 + bb * 0.0721750
  let Z := rr * 0.0193339 + gg * 0.1191920 + bb * 0.9503041
  let total := X + Y + Z
  if total = 0 then (0.31271, 0.32902) else (X / total, Y / total)

/-- Parameter names of alarm's signature (controller.py lines 237-242). -/
def alarmParams : List String :=
  ["light", "colour_xy", "style", "cancel_check", "duration_minutes"]

/-- Python call binding: a call with npos positional arguments and the
given keyword names binds against a parameter list without error iff the
positional arguments fit and every keyword names a parameter that is not
already bound positionally; otherwise the call raises TypeError before the
callee body runs. -/
def callOk (params : List String) (npos : ℕ) (kw : List String) : Bool :=
  decide (npos ≤ params.length) && kw.all (fun k => (params.drop npos).contains k)

/-- flash (controller.py lines 317-321): performs the call
`alarm(light, duration_minutes, interval=interval)` — two positional
arguments and the keyword name interval.  The body of alarm is unreachable
through this call because the binding fails, so the model carries only the
call outcome and no device actions. -/
def flash (_dur _iv : ℚ) : Except String Unit :=
  if callOk alarmParams 2 ["interval"] then Except.ok () else Except.error "TypeError"

/-- GUI schedule wait computation (gui.py lines 563-586).  `now` is the
current time of day in seconds since midnight; `hour` and `minute` are
none when the entry fields fail integer parsing (ValueError), `delay` is
none when the delay field fails float parsing.  Returns -1 on invalid
input, else the number of seconds to wait. -/
def get_wait_seconds (useTime : Bool) (hour minute : Option ℤ)
    (delay : Option ℚ) (now : ℚ) : ℚ :=
  if useTime then
    match hour, minute with
    | some h, some m =>
      if 0 ≤ h ∧ h ≤ 23 ∧ 0 ≤ m ∧ m ≤ 59 then
        if (h * 3600 + m * 60 : ℚ) ≤ now then 0 else (h * 3600 + m * 60 : ℚ) - now
      else -1
    | _, _ => -1
  else
    match delay with
    | some mins => mins * 60
    | none => -1

/-- Guard in _run_now (gui.py lines 588-602): when the computed wait is
negative the run is rejected with the "invalid time" status and no effect
is started (none); otherwise the effect is scheduled after that wait. -/
def run_now (useTime : Bool) (hour minute : Option ℤ) (delay : Option ℚ)
    (now : ℚ) : Option ℚ :=
  let ws := get_wait_seconds useTime hour minute delay now
  if ws < 0 then none else some ws

/-- AsyncHandler (gui.py lines 42-71) together with the state of its
background asyncio event loop: whether the loop is currently running
run_forever and whether it has been closed.  start() leaves the loop
running; nothing in the class ever closes the loop. -/
structure AsyncHandler where
  loopRunning : Bool
  loopClosed : Bool
  deriving DecidableEq

/-- Outcomes of submitting work to the handler.  The bridgeClosed
constructor is the BridgeClosedError condition named by the specification;
it is included so that its absence from the code's behaviour is statable. -/
inductive SubmitOutcome where
  | completed
  | pendingForever
  | timedOut (secs : ℚ)
  | runtimeClosedError
  | bridgeClosed
  deriving DecidableEq

/-- AsyncHandler.run (gui.py lines 59-61), modelled from the asyncio
semantics the code relies on: run_coroutine_threadsafe raises RuntimeError
only when the loop is closed; on a merely stopped loop it schedules a
callback that never executes, so future.result(timeout=30) blocks and then
raises TimeoutError after 30 seconds. -/
def AsyncHandler.run (a : AsyncHandler) : SubmitOutcome :=
  if a.loopClosed then .runtimeClosedError
  else if a.loopRunning then .completed
  else .timedOut 30

/-- AsyncHandler.run_async (gui.py lines 63-67): same scheduling, but the
future is returned without waiting, so on a stopped loop it simply never
completes. -/
def AsyncHandler.run_async (a : AsyncHandler) : SubmitOutcome :=
  if a.loopClosed then .runtimeClosedError
  else if a.loopRunning then .completed
  else .pendingForever

/-- AsyncHandler.stop (gui.py lines 69-71): `call_soon_threadsafe(loop.stop)`
makes run_forever return; the loop is left stopped but never closed. -/
def AsyncHandler.stop (a : AsyncHandler) : AsyncHandler :=
  ⟨false, a.loopClosed⟩

/-- Handler state after start(): loop running, not closed. -/
def startedHandler : AsyncHandler := ⟨true, false⟩

/-- One routine step record: the dict stored by save_routine, with the
defaults of run_routine's `.get` calls already applied. -/
structure RStep where
  effect : String
  duration : ℚ
  colour : String
  alarm_style : String
  alarm_duration : ℚ

/-- Colour preset table (controller.py lines 83-94). -/
def COLOURS : List (String × ℚ × ℚ) :=
  [("red", 0.68, 0.31), ("green", 0.17, 0.70), ("blue", 0.15, 0.06),
   ("yellow", 0.44, 0.52), ("orange", 0.58, 0.40), ("purple", 0.27, 0.12),
   ("pink", 0.50, 0.25), ("cyan", 0.15, 0.35), ("warm_white", 0.46, 0.41),
   ("cool_white", 0.31, 0.32)]

/-- `COLOURS.get(colour, COLOURS["red"])` (cli.py line 81). -/
def colourLookup (n : String) : ℚ × ℚ :=
  match COLOURS.find? (fun p => p.1 = n) with
  | some p => p.2
  | none => (0.68, 0.31)

/-- The effect invocation a routine step dispatches to. -/
inductive EffectCall where
  | fadeIn (dur : ℚ)
  | fadeOut (dur : ℚ)
  | alarmC (xy : ℚ × ℚ) (style : String) (dur : ℚ)
  deriving DecidableEq

/-- Dispatch of one routine step (cli.py lines 63-91): fades run with
their duration; an alarm with positive alarm_duration runs for it and one
with alarm_duration 0 (or less) runs for 1 minute; an unknown effect name
raises KeyError at the status line (none). -/
def stepCall (s : RStep) : Option EffectCall :=
  if s.effect = "fade_in" then some (.fadeIn s.duration)
  else if s.effect = "fade_out" then some (.fadeOut s.duration)
  else if s.effect = "alarm" then
    some (.alarmC (colourLookup s.colour) s.alarm_style
      (if 0 < s.alarm_duration then s.alarm_duration else 1))
  else none

/-- run_routine (cli.py lines 17-93) as the ordered sequence of effect
invocations it performs.  The scheduled waits inside it cannot cancel or
fail, so they do not affect the call sequence; none models the KeyError
raised on an unknown effect name. -/
def run_routine : List RStep → Option (List EffectCall)
  | [] => some []
  | s :: rest =>
    match stepCall s with
    | none => none
    | some c => (run_routine rest).map (fun l => c :: l)

/-- Execution of one dispatched call against the effect engine, with the
cli's absent cancel_check. -/
def execCall (fuel : ℕ) : EffectCall → Option (List Act × Bool)
  | .fadeIn d => some (fade_in d cfalse)
  | .fadeOut d => some (fade_out d cfalse)
  | .alarmC xy st d => alarm xy.1 xy.2 st cfalse d fuel

/-- Execution of a call sequence in order; none when some alarm does not
terminate within the fuel. -/
def execCalls (fuel : ℕ) : List EffectCall → Option (List (List Act))
  | [] => some []
  | c :: rest =>
    match execCall fuel c with
    | none => none
    | some p => (execCalls fuel rest).map (fun l => p.1 :: l)

/-- The spec's routine test step Alarm(red, flash, duration=0). -/
def stepAlarmZero : RStep := ⟨"alarm", 15, "red", "flash", 0⟩

/-- The spec's routine test step FadeIn(1). -/
def stepFadeOne : RStep := ⟨"fade_in", 1, "red", "flash", 0⟩

/-- On nonnegative arguments, Python truncation agrees with the floor. -/
lemma pyInt_eq_floor {q : ℚ} (h : 0 ≤ q) : pyInt q = ⌊q⌋ := by
  rw [pyInt, Rat.floor_def]
  exact Int.tdiv_eq_ediv (Rat.num_nonneg.mpr h) (Int.ofNat_nonneg q.den)

/-- C9: rgb_to_xy(0, 0, 0) takes the zero-total guard path and returns the
D65 white point (0.31271, 0.32902), whatever the gamma power function is. -/
theorem rgb_to_xy_zero_guard (pw : ℚ → ℚ) :
    rgb_to_xy pw 0 0 0 = (0.31271, 0.32902) := by
  norm_num [rgb_to_xy, gammaDecode]

/-- C10: the standalone flash helper calls alarm with the keyword name
interval, which alarm's signature does not accept (its second positional
argument lands in the colour position), so for every argument pair the call
raises TypeError before any device action; no flash effect is produced. -/
theorem flash_raises_type_error (dur iv : ℚ) :
    flash dur iv = Except.error "TypeError" ∧
    "interval" ∉ alarmParams ∧ alarmParams[1]? = some "colour_xy" :=
  ⟨rfl, by decide, rfl⟩

/-- C7: an AtClockTime trigger with hour outside 0..23 or minute outside
0..59 makes the schedule wait computation return -1 (the Invalid outcome)
for every current time, without waiting, and the run guard then never
starts the effect. -/
theorem invalid_clock_time_rejected (h m : ℤ) (d : Option ℚ) (now : ℚ)
    (hbad : ¬(0 ≤ h ∧ h ≤ 23 ∧ 0 ≤ m ∧ m ≤ 59)) :
    get_wait_seconds true (some h) (some m) d now = -1 ∧
    run_now true (some h) (some m) d now = none := by
  have h1 : get_wait_seconds true (some h) (some m) d now = -1 := by
    simp [get_wait_seconds, hbad]
  refine ⟨h1, ?_⟩
  simp only [run_now, h1]
  norm_num

/-- C7 witness: hour 25 is rejected and starts nothing. -/
theorem invalid_clock_time_rejected_witness :
    get_wait_seconds true (some 25) (some 0) none 0 = -1 ∧
    run_now true (some 25) (some 0) none 0 = none :=
  invalid_clock_time_rejected 25 0 none 0 (by decide)

/-- C8 counterexample: after stop() on a started handler, a blocking run
times out after 30 seconds and run_async hangs forever; neither fails with
a bridge-closed error. -/
theorem bridge_stop_counterexample :
    startedHandler.stop.run = SubmitOutcome.timedOut 30 ∧
    startedHandler.stop.run ≠ SubmitOutcome.bridgeClosed ∧
    startedHandler.stop.run_async = SubmitOutcome.pendingForever ∧
    startedHandler.stop.run_async ≠ SubmitOutcome.bridgeClosed := by
  decide

/-- C8 (amended): stop() stops the background loop but never closes it, so
a later submission never sees a bridge-closed condition: a blocking run is
accepted, blocks for its 30-second timeout and fails with TimeoutError,
and run_async is accepted but its future never completes. -/
theorem bridge_stop_behaviour (a : AsyncHandler) :
    a.stop.run ≠ SubmitOutcome.bridgeClosed ∧
    a.stop.run_async ≠ SubmitOutcome.bridgeClosed ∧
    (a.loopClosed = false →
      a.stop.run = SubmitOutcome.timedOut 30 ∧
      a.stop.run_async = SubmitOutcome.pendingForever) := by
  rcases a with ⟨r, c⟩
  cases r <;> cases c <;> decide

/-- C8 witness: the started handler after stop(). -/
theorem bridge_stop_behaviour_witness :
    startedHandler.stop.run = SubmitOutcome.timedOut 30 ∧
    startedHandler.stop.run_async = SubmitOutcome.pendingForever :=
  (bridge_stop_behaviour startedHandler).2.2 rfl

lemma flashLoop_runs_until (cancel : ℕ → Bool) (iv : ℚ) :
    ∀ (n k : ℕ) (now : ℚ) (st : Bool),
      (∀ j, j < n → cancel (k + j) = false) → cancel (k + n) = true →
      flashLoop ⟨cancel, none⟩ iv (n + 1) k now st =
        some (flashCycles iv n st, k + n + 1, now + n * iv) := by
  intro n
  induction n with
  | zero =>
    intro k now st _ h2
    simp only [Nat.add_zero] at h2
    simp [flashLoop, shouldStop, h2, flashCycles]
  | succ n ih =>
    intro k now st h1 h2
    have hk : cancel k = false := by simpa using h1 0 (Nat.succ_pos n)
    have hrec := ih (k + 1) (now + iv) (!st)
      (fun j hj => by
        have hx := h1 (j + 1) (Nat.succ_lt_succ hj)
        have he : k + (j + 1) = k + 1 + j := by omega
        rwa [he] at hx)
      (by
        have he : k + (n + 1) = k + 1 + n := by omega
        rwa [he] at h2)
    have hstop : shouldStop ⟨cancel, none⟩ k now = false := by
      simp [shouldStop, hk]
    rw [flashLoop, hrec, hstop]
    have e1 : k + 1 + n + 1 = k + (n + 1) + 1 := by omega
    have e2 : now + iv + (n : ℚ) * iv = now + (((n + 1 : ℕ) : ℚ)) * iv := by
      push_cast
      ring
    simp only [Bool.false_eq_true, if_false, flashCycles, e1, e2]

/-- C1: every alarm run that terminates returns True and performs, as its
final two device actions, power on and then brightness 254; a flash alarm
with no duration whose cancel stream is first true at check n exits after
exactly n 0.5-second flash cycles, leaving the light on at brightness 254. -/
theorem alarm_restores_on_and_bright :
    (∀ cx cy style cancel dur fuel tr r,
        alarm cx cy style cancel dur fuel = some (tr, r) →
        r = true ∧ ∃ tr0, tr = tr0 ++ [Act.power true, Act.bright 254]) ∧
    (∀ cx cy cancel n,
        (∀ j, j < n → cancel j = false) → cancel n = true →
        alarm cx cy "flash" cancel 0 (n + 1) =
          some ([Act.power true, Act.bright 254, Act.colourXY cx cy] ++
            flashCycles (0.5 : ℚ) n true ++ [Act.power true, Act.bright 254],
            true)) := by
  constructor
  · intro cx cy style cancel dur fuel tr r h
    simp only [alarm] at h
    split at h
    · exact absurd h (by simp)
    · rename_i trX kX tX heq
      rw [Option.some.injEq, Prod.mk.injEq] at h
      refine ⟨h.2.symm, ⟨[Act.power true, Act.bright 254, Act.colourXY cx cy] ++ trX, ?_⟩⟩
      rw [← h.1]
  · intro cx cy cancel n h1 h2
    have hflash := flashLoop_runs_until cancel 0.5 n 0 0 true
      (fun j hj => by simpa using h1 j hj) (by simpa using h2)
    have hdur : (if (0 : ℚ) < 0 then some ((0 : ℚ) * 60) else none) = none := by
      norm_num
    have hsty : ¬(("flash" : String) = "breathing") := by decide
    have hfast : (if ("flash" : String) = "fast" then (0.2 : ℚ) else 0.5) = 0.5 := by
      rw [if_neg (by decide)]
    simp only [alarm, hdur, hfast, if_neg hsty]
    rw [hflash]

/-- C1 witness: a flash alarm cancelled at the second check runs one cycle
and restores power on, brightness 254. -/
theorem alarm_restores_on_and_bright_witness :
    alarm 0.68 0.31 "flash" (fun k => decide (1 ≤ k)) 0 2 =
      some ([Act.power true, Act.bright 254, Act.colourXY 0.68 0.31] ++
        flashCycles (0.5 : ℚ) 1 true ++ [Act.power true, Act.bright 254], true) :=
  alarm_restores_on_and_bright.2 0.68 0.31 (fun k => decide (1 ≤ k)) 1
    (by decide) (by decide)

lemma fadeOutIter_no_power_off (cancel : ℕ → Bool) (steps : ℕ) (delay : ℚ) :
    ∀ l : List ℕ, Act.power false ∉ (fadeOutIter cancel steps delay l).1 := by
  intro l
  induction l with
  | nil => simp [fadeOutIter]
  | cons i rest ih =>
    cases hc : cancel i with
    | true => simp [fadeOutIter, hc]
    | false =>
      by_cases hlt : i < steps <;> simp [fadeOutIter, hc, hlt, ih]

lemma fadeOutIter_complete (cancel : ℕ → Bool) (steps : ℕ) (delay : ℚ) :
    ∀ l : List ℕ, (∀ i ∈ l, cancel i = false) →
      (fadeOutIter cancel steps delay l).2 = true := by
  intro l
  induction l with
  | nil => intro _; simp [fadeOutIter]
  | cons i rest ih =>
    intro hall
    have hc : cancel i = false := hall i (List.mem_cons_self i rest)
    simp [fadeOutIter, hc, ih (fun j hj => hall j (List.mem_cons_of_mem i hj))]

lemma fadeOutIter_cancelled (cancel : ℕ → Bool) (steps : ℕ) (delay : ℚ) :
    ∀ l : List ℕ, (∃ i ∈ l, cancel i = true) →
      (fadeOutIter cancel steps delay l).2 = false := by
  intro l
  induction l with
  | nil => rintro ⟨i, hi, _⟩; simp at hi
  | cons j rest ih =>
    rintro ⟨i, hi, hci⟩
    cases hc : cancel j with
    | true => simp [fadeOutIter, hc]
    | false =>
      have hmem : i ∈ rest := by
        rcases List.mem_cons.mp hi with he | he
        · subst he; rw [hci] at hc; cases hc
        · exact he
      simp [fadeOutIter, hc, ih ⟨i, hmem, hci⟩]

/-- C2: fade_out run with the cancel check false at every step boundary
returns True and issues power-off as its final device action; a run whose
cancel check is true at some step boundary returns False and never issues
power-off. -/
theorem fade_out_power_off_policy :
    (∀ dur cancel, (∀ i, i ≤ stepsOf dur → cancel i = false) →
        (fade_out dur cancel).2 = true ∧
        ∃ tr0, (fade_out dur cancel).1 = tr0 ++ [Act.power false]) ∧
    (∀ dur cancel, (∃ i, i ≤ stepsOf dur ∧ cancel i = true) →
        (fade_out dur cancel).2 = false ∧
        Act.power false ∉ (fade_out dur cancel).1) := by
  constructor
  · intro dur cancel hall
    have hflag := fadeOutIter_complete cancel (stepsOf dur)
      (dur * 60 / (stepsOf dur : ℚ)) (List.range (stepsOf dur + 1))
      (fun i hi => hall i (by have := List.mem_range.mp hi; omega))
    refine ⟨by simp [fade_out, hflag], ?_⟩
    refine ⟨[Act.power true, Act.bright 254, Act.temp 250] ++
      (fadeOutIter cancel (stepsOf dur) (dur * 60 / (stepsOf dur : ℚ))
        (List.range (stepsOf dur + 1))).1, ?_⟩
    simp [fade_out, hflag, List.append_assoc]
  · rintro dur cancel ⟨i, hle, hci⟩
    have hflag := fadeOutIter_cancelled cancel (stepsOf dur)
      (dur * 60 / (stepsOf dur : ℚ)) (List.range (stepsOf dur + 1))
      ⟨i, List.mem_range.mpr (by omega), hci⟩
    refine ⟨by simp [fade_out, hflag], ?_⟩
    simp [fade_out, hflag, fadeOutIter_no_power_off]

/-- C2 witness: fade_out cancelled at the first step boundary returns
False and issues no power-off. -/
theorem fade_out_power_off_policy_witness :
    (fade_out 0 (fun k => decide (k = 0))).2 = false ∧
    Act.power false ∉ (fade_out 0 (fun k => decide (k = 0))).1 :=
  fade_out_power_off_policy.2 0 (fun k => decide (k = 0))
    ⟨0, Nat.zero_le _, by decide⟩

lemma pyInt_eval {q : ℚ} {n : ℤ} (h0 : 0 ≤ q) (h1 : (n : ℚ) ≤ q)
    (h2 : q < (n : ℚ) + 1) : pyInt q = n := by
  rw [pyInt_eq_floor h0]
  exact Int.floor_eq_iff.mpr ⟨h1, h2⟩

lemma writesOf_append (a b : List Act) :
    writesOf (a ++ b) = writesOf a ++ writesOf b := by
  induction a with
  | nil => simp [writesOf]
  | cons x xs ih => cases x <;> simp [writesOf, ih]

lemma tempsOf_append (a b : List Act) :
    tempsOf (a ++ b) = tempsOf a ++ tempsOf b := by
  induction a with
  | nil => simp [tempsOf]
  | cons x xs ih => cases x <;> simp [tempsOf, ih]

lemma fadeInIter_writes (steps : ℕ) (delay : ℚ) :
    ∀ l : List ℕ, writesOf (fadeInIter cfalse steps delay l).1 =
      l.map (fun i => pyInt ((1 : ℚ) + 253 * ((i : ℚ) / (steps : ℚ)))) := by
  intro l
  induction l with
  | nil => simp [fadeInIter, writesOf]
  | cons i rest ih =>
    by_cases hlt : i < steps <;>
      simp [fadeInIter, cfalse, writesOf, hlt, ih]

lemma fadeInIter_temps (steps : ℕ) (delay : ℚ) :
    ∀ l : List ℕ, tempsOf (fadeInIter cfalse steps delay l).1 =
      l.map (fun i => pyInt ((500 : ℚ) - 250 * ((i : ℚ) / (steps : ℚ)))) := by
  intro l
  induction l with
  | nil => simp [fadeInIter, tempsOf]
  | cons i rest ih =>
    by_cases hlt : i < steps <;>
      simp [fadeInIter, cfalse, tempsOf, hlt, ih]

lemma fade_in_writes (dur : ℚ) :
    writesOf (fade_in dur cfalse).1 =
      1 :: (List.range (stepsOf dur + 1)).map
        (fun i => pyInt ((1 : ℚ) + 253 * ((i : ℚ) / (stepsOf dur : ℚ)))) := by
  simp [fade_in, writesOf_append, fadeInIter_writes, writesOf]

lemma fade_in_temps (dur : ℚ) :
    tempsOf (fade_in dur cfalse).1 =
      500 :: (List.range (stepsOf dur + 1)).map
        (fun i => pyInt ((500 : ℚ) - 250 * ((i : ℚ) / (stepsOf dur : ℚ)))) := by
  simp [fade_in, tempsOf_append, fadeInIter_temps, tempsOf]

lemma fadeInIter_sleeps (cancel : ℕ → Bool) (steps : ℕ) (delay : ℚ) :
    ∀ (l : List ℕ) (s : ℚ),
      Act.sleep s ∈ (fadeInIter cancel steps delay l).1 → s = delay := by
  intro l
  induction l with
  | nil => intro s hs; simp [fadeInIter] at hs
  | cons i rest ih =>
    intro s hs
    cases hc : cancel i with
    | true => rw [fadeInIter] at hs; simp [hc] at hs
    | false =>
      rw [fadeInIter] at hs
      by_cases hlt : i < steps
      · simp [hc, hlt] at hs
        rcases hs with hs | hs
        · exact hs
        · exact ih s hs
      · simp [hc, hlt] at hs
        exact ih s hs

lemma fade_in_sleeps (dur : ℚ) (cancel : ℕ → Bool) (s : ℚ)
    (hs : Act.sleep s ∈ (fade_in dur cancel).1) :
    s = dur * 60 / (stepsOf dur : ℚ) := by
  rw [fade_in] at hs
  simp only [List.mem_append] at hs
  rcases hs with h | h
  · simp at h
  · exact fadeInIter_sleeps cancel (stepsOf dur) (dur * 60 / (stepsOf dur : ℚ))
      (List.range (stepsOf dur + 1)) s h

lemma stepsOf_zero : stepsOf 0 = 1 := by
  have h0 : (0 : ℚ) * 6 = 0 := by norm_num
  have hp : pyInt 0 = 0 := pyInt_eval le_rfl (by norm_num) (by norm_num)
  rw [stepsOf, h0, hp]
  rfl

lemma fade_in_zero_eval :
    fade_in 0 cfalse =
      ([Act.power true, Act.bright 1, Act.temp 500, Act.bright 1, Act.temp 500,
        Act.sleep 0, Act.bright 254, Act.temp 250], true) := by
  have hb0 : pyInt (1 : ℚ) = 1 := pyInt_eval (by norm_num) (by norm_num) (by norm_num)
  have hb1 : pyInt (254 : ℚ) = 254 := pyInt_eval (by norm_num) (by norm_num) (by norm_num)
  have ht0 : pyInt (500 : ℚ) = 500 := pyInt_eval (by norm_num) (by norm_num) (by norm_num)
  have ht1 : pyInt (250 : ℚ) = 250 := pyInt_eval (by norm_num) (by norm_num) (by norm_num)
  have hr2 : List.range (1 + 1) = [0, 1] := by decide
  norm_num [fade_in, stepsOf_zero, hr2, fadeInIter, cfalse, hb0, hb1, ht0, ht1]

/-- C3 (amended): at step i of steps, fade_in applies
brightness = int(1 + 253 p) and temperature = int(500 - 250 p) — Python
int() truncation, not round() — for p = i / steps over i = 0..steps; for
durationMinutes ≥ 0 it never sleeps a negative (or infinite) time, and
durationMinutes = 0 runs exactly the two steps i = 0, 1, taking brightness
1 → 254 and temperature 500 → 250. -/
theorem fade_in_step_values (dur : ℚ) (h : 0 ≤ dur) :
    writesOf (fade_in dur cfalse).1 =
      1 :: (List.range (stepsOf dur + 1)).map
        (fun i => pyInt ((1 : ℚ) + 253 * ((i : ℚ) / (stepsOf dur : ℚ)))) ∧
    tempsOf (fade_in dur cfalse).1 =
      500 :: (List.range (stepsOf dur + 1)).map
        (fun i => pyInt ((500 : ℚ) - 250 * ((i : ℚ) / (stepsOf dur : ℚ)))) ∧
    (∀ s, Act.sleep s ∈ (fade_in dur cfalse).1 → 0 ≤ s) ∧
    fade_in 0 cfalse =
      ([Act.power true, Act.bright 1, Act.temp 500, Act.bright 1, Act.temp 500,
        Act.sleep 0, Act.bright 254, Act.temp 250], true) := by
  refine ⟨fade_in_writes dur, fade_in_temps dur, ?_, ?_⟩
  · intro s hs
    rw [fade_in_sleeps dur cfalse s hs]
    apply div_nonneg (mul_nonneg h (by norm_num)) (Nat.cast_nonneg _)
  · exact fade_in_zero_eval

/-- C3 witness: the step formulas at durationMinutes = 1. -/
theorem fade_in_step_values_witness :
    writesOf (fade_in 1 cfalse).1 =
      1 :: (List.range (stepsOf 1 + 1)).map
        (fun i => pyInt ((1 : ℚ) + 253 * ((i : ℚ) / (stepsOf 1 : ℚ)))) ∧
    tempsOf (fade_in 1 cfalse).1 =
      500 :: (List.range (stepsOf 1 + 1)).map
        (fun i => pyInt ((500 : ℚ) - 250 * ((i : ℚ) / (stepsOf 1 : ℚ)))) ∧
    (∀ s, Act.sleep s ∈ (fade_in 1 cfalse).1 → 0 ≤ s) ∧
    fade_in 0 cfalse =
      ([Act.power true, Act.bright 1, Act.temp 500, Act.bright 1, Act.temp 500,
        Act.sleep 0, Act.bright 254, Act.temp 250], true) :=
  fade_in_step_values 1 (by norm_num)

lemma stepsOf_one : stepsOf 1 = 6 := by
  have h6 : (1 : ℚ) * 6 = 6 := by norm_num
  have hp : pyInt (6 : ℚ) = 6 := pyInt_eval (by norm_num) (by norm_num) (by norm_num)
  rw [stepsOf, h6, hp]
  rfl

lemma stepsOf_two_thirds : stepsOf (2 / 3) = 4 := by
  have h4 : (2 / 3 : ℚ) * 6 = 4 := by norm_num
  have hp : pyInt (4 : ℚ) = 4 := pyInt_eval (by norm_num) (by norm_num) (by norm_num)
  rw [stepsOf, h4, hp]
  rfl

/-- C3 counterexample: with durationMinutes = 1 the step i = 3 writes
brightness 127 while round(1 + 253 * (3/6)) = 128, and with
durationMinutes = 2/3 the step i = 1 writes temperature 437 while
round(500 - 250 * (1/4)) = 438: the code truncates, it does not round. -/
theorem fade_in_round_counterexample :
    (writesOf (fade_in 1 cfalse).1)[4]? = some 127 ∧
    round ((1 : ℚ) + 253 * (3 / 6)) = 128 ∧
    (tempsOf (fade_in (2 / 3) cfalse).1)[2]? = some 437 ∧
    round ((500 : ℚ) - 250 * (1 / 4)) = 438 := by
  have hw := fade_in_writes 1
  rw [stepsOf_one] at hw
  have hr7 : List.range (6 + 1) = [0, 1, 2, 3, 4, 5, 6] := by decide
  rw [hr7] at hw
  have ht := fade_in_temps (2 / 3)
  rw [stepsOf_two_thirds] at ht
  have hr5 : List.range (4 + 1) = [0, 1, 2, 3, 4] := by decide
  rw [hr5] at ht
  refine ⟨?_, ?_, ?_, ?_⟩
  · rw [hw]
    simp only [List.getElem?_cons_succ, List.map_cons, List.map_nil, Nat.cast_ofNat,
      List.getElem?_cons_zero]
    norm_num
    exact pyInt_eval (by norm_num) (by norm_num) (by norm_num)
  · have he : (1 : ℚ) + 253 * (3 / 6) + 1 / 2 = ((128 : ℤ) : ℚ) := by norm_num
    rw [round_eq, he, Int.floor_intCast]
  · rw [ht]
    simp only [List.getElem?_cons_succ, List.map_cons, List.map_nil, Nat.cast_ofNat,
      List.getElem?_cons_zero]
    norm_num
    exact pyInt_eval (by norm_num) (by norm_num) (by norm_num)
  · have he : (500 : ℚ) - 250 * (1 / 4) + 1 / 2 = ((438 : ℤ) : ℚ) := by norm_num
    rw [round_eq, he, Int.floor_intCast]

lemma rampLoop_writes_take (c : StopCfg) :
    ∀ (vals : List ℤ) (k : ℕ) (now : ℚ),
      ∃ m, writesOf (rampLoop c vals k now).1 = vals.take m := by
  intro vals
  induction vals with
  | nil => intro k now; exact ⟨0, by simp [rampLoop, writesOf]⟩
  | cons v rest ih =>
    intro k now
    by_cases hs : shouldStop c k now = true
    · exact ⟨0, by simp [rampLoop, hs, writesOf]⟩
    · obtain ⟨m, hm⟩ := ih (k + 1) (now + 0.05)
      exact ⟨m + 1, by simp [rampLoop, hs, writesOf, hm]⟩

lemma rampLoop_writes_all :
    ∀ (vals : List ℤ) (k : ℕ) (now : ℚ),
      writesOf (rampLoop ⟨cfalse, none⟩ vals k now).1 = vals := by
  intro vals
  induction vals with
  | nil => intro k now; simp [rampLoop, writesOf]
  | cons v rest ih =>
    intro k now
    simp [rampLoop, shouldStop, cfalse, writesOf, ih]

/-- C4 (amended): the writes of each breathing ramp are a prefix of its
Python range (stop checked before each write, so a ramp may be cut short);
an uninterrupted ramp writes the whole range: downward 254, 239, ..., 29
and upward 20, 35, ..., 245 in steps of 15 — the opposite endpoints 20 and
254 are never written inside a ramp — and an unstopped pass of the
breathing loop writes exactly the two ranges in order. -/
theorem breathing_ramp_structure :
    (∀ (c : StopCfg) (vals : List ℤ) (k : ℕ) (now : ℚ),
        ∃ m, writesOf (rampLoop c vals k now).1 = vals.take m) ∧
    (∀ (vals : List ℤ) (k : ℕ) (now : ℚ),
        writesOf (rampLoop ⟨cfalse, none⟩ vals k now).1 = vals) ∧
    pyRange 254 20 (-15) =
      [254, 239, 224, 209, 194, 179, 164, 149, 134, 119, 104, 89, 74, 59, 44, 29] ∧
    pyRange 20 254 15 =
      [20, 35, 50, 65, 80, 95, 110, 125, 140, 155, 170, 185, 200, 215, 230, 245] ∧
    ((breathingLoop ⟨fun k => decide (34 ≤ k), none⟩ 2 0 0).map
      (fun p => writesOf p.1)) =
      some (pyRange 254 20 (-15) ++ pyRange 20 254 15) :=
  ⟨rampLoop_writes_take, rampLoop_writes_all, by decide, by decide, by decide⟩

/-- C4 counterexample: a breathing alarm stopped at the loop check after
one full pass writes brightness 254 (setup), then the full down ramp
254..29, then the full up ramp 20..245, then 254 (exit): the full down
ramp never writes the endpoint 20 and the full up ramp never writes the
endpoint 254. -/
theorem breathing_endpoint_counterexample :
    ((alarm 0.68 0.31 "breathing" (fun k => decide (34 ≤ k)) 0 2).map
      (fun p => writesOf p.1)) =
      some (254 :: (pyRange 254 20 (-15) ++ pyRange 20 254 15 ++ [254])) ∧
    (20 : ℤ) ∉ pyRange 254 20 (-15) ∧
    (254 : ℤ) ∉ pyRange 20 254 15 :=
  ⟨by decide, by decide, by decide⟩

lemma pyInt_bounds {q : ℚ} {lo hi : ℤ} (h0 : 0 ≤ q) (h1 : (lo : ℚ) ≤ q)
    (h2 : q ≤ (hi : ℚ)) : lo ≤ pyInt q ∧ pyInt q ≤ hi := by
  rw [pyInt_eq_floor h0]
  refine ⟨Int.le_floor.mpr h1, ?_⟩
  calc ⌊q⌋ ≤ ⌊(hi : ℚ)⌋ := Int.floor_le_floor h2
    _ = hi := Int.floor_intCast hi

lemma stepsOf_pos (dur : ℚ) : 0 < stepsOf dur := by
  rw [stepsOf]
  have h := le_max_right (pyInt (dur * 6)) 1
  omega

lemma progress_bounds {steps : ℕ} (hpos : 0 < steps) {i : ℕ} (hle : i ≤ steps) :
    0 ≤ (i : ℚ) / (steps : ℚ) ∧ (i : ℚ) / (steps : ℚ) ≤ 1 := by
  have hs : (0 : ℚ) < steps := by exact_mod_cast hpos
  refine ⟨by positivity, ?_⟩
  rw [div_le_one hs]
  exact_mod_cast hle

lemma fadeInIter_bright_mem (cancel : ℕ → Bool) (steps : ℕ) (delay : ℚ) :
    ∀ (l : List ℕ) (b : ℤ), Act.bright b ∈ (fadeInIter cancel steps delay l).1 →
      ∃ i ∈ l, b = pyInt ((1 : ℚ) + 253 * ((i : ℚ) / (steps : ℚ))) := by
  intro l
  induction l with
  | nil => intro b hb; simp [fadeInIter] at hb
  | cons i rest ih =>
    intro b hb
    cases hc : cancel i with
    | true => rw [fadeInIter] at hb; simp [hc] at hb
    | false =>
      rw [fadeInIter] at hb
      by_cases hlt : i < steps
      · simp [hc, hlt] at hb
        rcases hb with hb | hb
        · exact ⟨i, List.mem_cons_self i rest, hb⟩
        · obtain ⟨j, hj, hbj⟩ := ih b hb
          exact ⟨j, List.mem_cons_of_mem i hj, hbj⟩
      · simp [hc, hlt] at hb
        rcases hb with hb | hb
        · exact ⟨i, List.mem_cons_self i rest, hb⟩
        · obtain ⟨j, hj, hbj⟩ := ih b hb
          exact ⟨j, List.mem_cons_of_mem i hj, hbj⟩

lemma fadeOutIter_bright_mem (cancel : ℕ → Bool) (steps : ℕ) (delay : ℚ) :
    ∀ (l : List ℕ) (b : ℤ), Act.bright b ∈ (fadeOutIter cancel steps delay l).1 →
      ∃ i ∈ l, b = max 1 (pyInt ((254 : ℚ) - 253 * ((i : ℚ) / (steps : ℚ)))) := by
  intro l
  induction l with
  | nil => intro b hb; simp [fadeOutIter] at hb
  | cons i rest ih =>
    intro b hb
    cases hc : cancel i with
    | true => rw [fadeOutIter] at hb; simp [hc] at hb
    | false =>
      rw [fadeOutIter] at hb
      by_cases hlt : i < steps
      · simp [hc, hlt] at hb
        rcases hb with hb | hb
        · exact ⟨i, List.mem_cons_self i rest, hb⟩
        · obtain ⟨j, hj, hbj⟩ := ih b hb
          exact ⟨j, List.mem_cons_of_mem i hj, hbj⟩
      · simp [hc, hlt] at hb
        rcases hb with hb | hb
        · exact ⟨i, List.mem_cons_self i rest, hb⟩
        · obtain ⟨j, hj, hbj⟩ := ih b hb
          exact ⟨j, List.mem_cons_of_mem i hj, hbj⟩

lemma flashLoop_no_bright (c : StopCfg) (iv : ℚ) :
    ∀ (fuel k : ℕ) (now : ℚ) (st : Bool) (tr : List Act) (k2 : ℕ) (t2 : ℚ),
      flashLoop c iv fuel k now st = some (tr, k2, t2) →
      ∀ b : ℤ, Act.bright b ∉ tr := by
  intro fuel
  induction fuel with
  | zero => intro k now st tr k2 t2 h; cases h
  | succ fuel ih =>
    intro k now st tr k2 t2 h b
    rw [flashLoop] at h
    by_cases hs : shouldStop c k now = true
    · rw [if_pos hs] at h
      rw [Option.some.injEq, Prod.mk.injEq] at h
      rw [← h.1]
      simp
    · rw [if_neg hs] at h
      rcases hrec : flashLoop c iv fuel (k + 1) (now + iv) (!st) with _ | ⟨tr3, k3, t3⟩
      · rw [hrec] at h; cases h
      · rw [hrec] at h
        rw [Option.some.injEq, Prod.mk.injEq] at h
        rw [← h.1]
        simp only [List.mem_cons, not_or]
        exact ⟨by simp, by simp, ih (k + 1) (now + iv) (!st) tr3 k3 t3 hrec b⟩

lemma rampLoop_bright_mem (c : StopCfg) :
    ∀ (vals : List ℤ) (k : ℕ) (now : ℚ) (b : ℤ),
      Act.bright b ∈ (rampLoop c vals k now).1 → b ∈ vals := by
  intro vals
  induction vals with
  | nil => intro k now b hb; simp [rampLoop] at hb
  | cons v rest ih =>
    intro k now b hb
    by_cases hs : shouldStop c k now = true
    · simp [rampLoop, hs] at hb
    · simp only [rampLoop, if_neg hs, List.mem_cons] at hb
      rcases hb with hb | hb | hb
      · simp at hb
        simp [hb]
      · cases hb
      · exact List.mem_cons_of_mem v (ih (k + 1) (now + 0.05) b hb)

lemma breathingLoop_bright_mem (c : StopCfg) :
    ∀ (fuel k : ℕ) (now : ℚ) (tr : List Act) (k2 : ℕ) (t2 : ℚ),
      breathingLoop c fuel k now = some (tr, k2, t2) →
      ∀ b : ℤ, Act.bright b ∈ tr →
        b ∈ pyRange 254 20 (-15) ∨ b ∈ pyRange 20 254 15 := by
  intro fuel
  induction fuel with
  | zero => intro k now tr k2 t2 h; cases h
  | succ fuel ih =>
    intro k now tr k2 t2 h b hb
    simp only [breathingLoop] at h
    set d := rampLoop c (pyRange 254 20 (-15)) (k + 1) now with hd
    set u := rampLoop c (pyRange 20 254 15) (d.2.1 + 1) d.2.2 with hu
    by_cases hs1 : shouldStop c k now = true
    · rw [if_pos hs1] at h
      rw [Option.some.injEq, Prod.mk.injEq] at h
      rw [← h.1] at hb
      simp at hb
    · rw [if_neg hs1] at h
      by_cases hs2 : shouldStop c d.2.1 d.2.2 = true
      · rw [if_pos hs2] at h
        rw [Option.some.injEq, Prod.mk.injEq] at h
        rw [← h.1] at hb
        exact Or.inl (rampLoop_bright_mem c (pyRange 254 20 (-15)) (k + 1) now b hb)
      · rw [if_neg hs2] at h
        rcases hrec : breathingLoop c fuel u.2.1 u.2.2 with _ | ⟨tr3, k3, t3⟩
        · rw [hrec] at h; cases h
        · rw [hrec] at h
          rw [Option.some.injEq, Prod.mk.injEq] at h
          rw [← h.1] at hb
          simp only [List.mem_append] at hb
          rcases hb with (hb | hb) | hb
          · exact Or.inl (rampLoop_bright_mem c (pyRange 254 20 (-15)) (k + 1) now b hb)
          · exact Or.inr (rampLoop_bright_mem c (pyRange 20 254 15) (d.2.1 + 1) d.2.2 b hb)
          · exact ih u.2.1 u.2.2 tr3 k3 t3 hrec b hb

lemma pyRange_down_bounds : ∀ b ∈ pyRange 254 20 (-15), 1 ≤ b ∧ b ≤ 254 := by decide

lemma pyRange_up_bounds : ∀ b ∈ pyRange 20 254 15, 1 ≤ b ∧ b ≤ 254 := by decide

/-- C5: every brightness value passed to the light by fade_in, fade_out
and alarm (any style, any step, any breathing-ramp position) is an integer
in [1, 254]; in particular 0 is never sent. -/
theorem brightness_always_in_range :
    (∀ (dur : ℚ) (cancel : ℕ → Bool) (b : ℤ), 0 ≤ dur →
        Act.bright b ∈ (fade_in dur cancel).1 → 1 ≤ b ∧ b ≤ 254) ∧
    (∀ (dur : ℚ) (cancel : ℕ → Bool) (b : ℤ), 0 ≤ dur →
        Act.bright b ∈ (fade_out dur cancel).1 → 1 ≤ b ∧ b ≤ 254) ∧
    (∀ (cx cy : ℚ) (style : String) (cancel : ℕ → Bool) (dur : ℚ) (fuel : ℕ)
        (tr : List Act) (r : Bool) (b : ℤ),
        alarm cx cy style cancel dur fuel = some (tr, r) →
        Act.bright b ∈ tr → 1 ≤ b ∧ b ≤ 254) := by
  refine ⟨?_, ?_, ?_⟩
  · intro dur cancel b _h hb
    rw [fade_in] at hb
    simp only [List.mem_append] at hb
    rcases hb with hb | hb
    · simp at hb
      simp [hb]
    · obtain ⟨i, hi, hbi⟩ := fadeInIter_bright_mem cancel (stepsOf dur) _ _ b hb
      have hle : i ≤ stepsOf dur := by
        have := List.mem_range.mp hi; omega
      obtain ⟨hp0, hp1⟩ := progress_bounds (stepsOf_pos dur) hle
      rw [hbi]
      exact pyInt_bounds (by linarith) (by push_cast; linarith) (by push_cast; linarith)
  · intro dur cancel b _h hb
    rw [fade_out] at hb
    simp only [List.mem_append] at hb
    rcases hb with (hb | hb) | hb
    · simp at hb
      simp [hb]
    · obtain ⟨i, hi, hbi⟩ := fadeOutIter_bright_mem cancel (stepsOf dur) _ _ b hb
      have hle : i ≤ stepsOf dur := by
        have := List.mem_range.mp hi; omega
      obtain ⟨hp0, hp1⟩ := progress_bounds (stepsOf_pos dur) hle
      have hbnd : (1 : ℤ) ≤ pyInt ((254 : ℚ) - 253 * ((i : ℚ) / (stepsOf dur : ℚ))) ∧
          pyInt ((254 : ℚ) - 253 * ((i : ℚ) / (stepsOf dur : ℚ))) ≤ 254 :=
        pyInt_bounds (by linarith) (by push_cast; linarith) (by push_cast; linarith)
      rw [hbi]
      exact ⟨le_max_left 1 _, max_le (by norm_num) hbnd.2⟩
    · rcases (fade_out dur cancel).2 <;> simp_all
  · intro cx cy style cancel dur fuel tr r b h hb
    simp only [alarm] at h
    split at h
    · exact absurd h (by simp)
    · rename_i trX kX tX heq
      rw [Option.some.injEq, Prod.mk.injEq] at h
      rw [← h.1] at hb
      simp only [List.mem_append, List.mem_cons] at hb
      rcases hb with (hb | hb) | hb
      · rcases hb with hb | hb | hb | hb
        · cases hb
        · injection hb with hb2; omega
        · cases hb
        · simp at hb
      · by_cases hsty : style = "breathing"
        · rw [if_pos hsty] at heq
          rcases breathingLoop_bright_mem _ fuel 0 0 trX kX tX heq b hb with hm | hm
          · exact pyRange_down_bounds b hm
          · exact pyRange_up_bounds b hm
        · rw [if_neg hsty] at heq
          exact absurd hb (flashLoop_no_bright _ _ fuel 0 0 true trX kX tX heq b)
      · rcases hb with hb | hb | hb
        · cases hb
        · injection hb with hb2; omega
        · simp at hb

/-- C5 witness: the initial brightness write of fade_in at duration 0. -/
theorem brightness_always_in_range_witness : (1 : ℤ) ≤ 1 ∧ (1 : ℤ) ≤ 254 :=
  brightness_always_in_range.1 0 cfalse 1 le_rfl
    (by rw [fade_in_zero_eval]; simp)

lemma flashLoop_time_bound (e iv : ℚ) :
    ∀ (fuel k : ℕ) (now : ℚ) (st : Bool), e ≤ now + fuel * iv →
      (flashLoop ⟨cfalse, some e⟩ iv (fuel + 1) k now st).isSome = true := by
  intro fuel
  induction fuel with
  | zero =>
    intro k now st hle
    rw [Nat.cast_zero, zero_mul, add_zero] at hle
    rw [flashLoop]
    have hs : shouldStop ⟨cfalse, some e⟩ k now = true := by
      simp [shouldStop, cfalse, hle]
    rw [if_pos hs]
    rfl
  | succ fuel ih =>
    intro k now st hle
    rw [flashLoop]
    by_cases hs : shouldStop ⟨cfalse, some e⟩ k now = true
    · rw [if_pos hs]; rfl
    · rw [if_neg hs]
      have harith : e ≤ now + iv + (fuel : ℚ) * iv := by
        push_cast at hle
        linarith
      have hrec := ih (k + 1) (now + iv) (!st) harith
      obtain ⟨⟨tr3, k3, t3⟩, hp⟩ := Option.isSome_iff_exists.mp hrec
      rw [hp]
      rfl

lemma alarm_flash_one_minute_terminates :
    (alarm 0.68 0.31 "flash" cfalse 1 121).isSome = true := by
  have hbound : (60 : ℚ) ≤ 0 + ((120 : ℕ) : ℚ) * (0.5 : ℚ) := by norm_num
  have hb := flashLoop_time_bound 60 0.5 120 0 0 true hbound
  obtain ⟨⟨tr3, k3, t3⟩, hp⟩ := Option.isSome_iff_exists.mp hb
  have hp2 : flashLoop ⟨cfalse, some 60⟩ 0.5 121 0 0 true = some (tr3, k3, t3) := hp
  simp only [alarm]
  rw [if_neg (by decide : ¬("flash" : String) = "breathing")]
  have hfast : (if ("flash" : String) = "fast" then (0.2 : ℚ) else 0.5) = 0.5 :=
    if_neg (by decide)
  have hdur : (if (0 : ℚ) < 1 then some ((1 : ℚ) * 60) else none) = some 60 := by
    rw [if_pos (by norm_num)]
    norm_num
  rw [hfast, hdur, hp2]
  rfl

lemma stepCall_alarm_zero (s : RStep) (h1 : s.effect = "alarm")
    (h2 : s.alarm_duration = 0) :
    stepCall s = some (EffectCall.alarmC (colourLookup s.colour) s.alarm_style 1) := by
  simp only [stepCall, h1, h2]
  norm_num
  simp

lemma run_routine_concrete :
    run_routine [stepAlarmZero, stepFadeOne] =
      some [EffectCall.alarmC (0.68, 0.31) "flash" 1, EffectCall.fadeIn 1] := rfl

lemma run_routine_append (l1 l2 : List RStep) :
    ∀ a : List EffectCall, run_routine l1 = some a →
      run_routine (l1 ++ l2) = (run_routine l2).map (fun b => a ++ b) := by
  induction l1 with
  | nil =>
    intro a h
    simp only [run_routine, Option.some.injEq] at h
    subst h
    simp [run_routine]
  | cons s rest ih =>
    intro a h
    rcases hsc : stepCall s with _ | c
    · rw [run_routine, hsc] at h; cases h
    · rw [run_routine, hsc] at h
      obtain ⟨a2, ha2, hcons⟩ := Option.map_eq_some'.mp h
      subst hcons
      rw [List.cons_append, run_routine, hsc, ih a2 ha2]
      rcases run_routine l2 with _ | b <;> simp

/-- C6: a routine alarm step whose explicit alarm duration is 0 is
dispatched with a duration of 1 minute; the runner then still executes the
remaining steps, and on the spec's two-step example routine both steps run
to completion because the 1-minute flash alarm terminates. -/
theorem routine_zero_duration_alarm :
    (∀ s : RStep, s.effect = "alarm" → s.alarm_duration = 0 →
        stepCall s = some (EffectCall.alarmC (colourLookup s.colour) s.alarm_style 1)) ∧
    (∀ (pre post : List RStep) (s : RStep) (a b : List EffectCall),
        s.effect = "alarm" → s.alarm_duration = 0 →
        run_routine pre = some a → run_routine post = some b →
        run_routine (pre ++ s :: post) =
          some (a ++ EffectCall.alarmC (colourLookup s.colour) s.alarm_style 1 :: b)) ∧
    run_routine [stepAlarmZero, stepFadeOne] =
      some [EffectCall.alarmC (0.68, 0.31) "flash" 1, EffectCall.fadeIn 1] ∧
    ((run_routine [stepAlarmZero, stepFadeOne]).bind (execCalls 121)).map
      (fun l => l.length) = some 2 := by
  refine ⟨stepCall_alarm_zero, ?_, run_routine_concrete, ?_⟩
  · intro pre post s a b h1 h2 ha hb
    rw [run_routine_append pre (s :: post) a ha, run_routine,
      stepCall_alarm_zero s h1 h2, hb]
    rfl
  · rw [run_routine_concrete]
    obtain ⟨p, hp⟩ := Option.isSome_iff_exists.mp alarm_flash_one_minute_terminates
    simp only [Option.some_bind, execCalls, execCall]
    rw [show alarm (0.68, (0.31 : ℚ)).1 (0.68, (0.31 : ℚ)).2 "flash" cfalse 1 121 =
      some p from hp]
    rfl

/-- C6 witness: the example alarm step with duration 0 dispatches with
duration 1. -/
theorem routine_zero_duration_alarm_witness :
    stepCall stepAlarmZero =
      some (EffectCall.alarmC (colourLookup "red") "flash" 1) :=
  routine_zero_duration_alarm.1 stepAlarmZero rfl rfl
